import Mathlib

/-!
Shallow embedding of `book_classificator.py`.

The module's core pieces are modelled as executable Lean functions:

* the Python `re` pattern `_ISBN_RE` is modelled by a backtracking matcher
  over `List Char` whose alternation order and greedy quantifiers mirror
  CPython's leftmost, branch-priority backtracking semantics; the pattern is
  compiled without `re.ASCII`, so its classes `\d`, `\s`, `\w` are
  Unicode-aware: the matcher here is parametric in those three classes, the
  universal theorems assume of them only facts true of their Unicode
  semantics ('X'/'x' are not decimal digits, whitespace never lies in
  `[0-9Xx]`), and the ASCII instantiation `find_isbn_in_text` is used only
  to evaluate concrete ASCII inputs, on which it coincides with the
  program;
* the `Book` dataclass is modelled as pure functions of a `BookFile`: the
  file suffix together with the outcome (`Except`) of each underlying
  container parse, so that parser failures are explicit values rather
  than exceptions, and `functools.cached_property` is modelled by an
  explicit cache-state transformer `cachedGet`.
-/

namespace BookClassificator

abbrev Chars := List Char

/-- ASCII fragment of the Python regex class `\s`: the instantiation used on
the concrete ASCII inputs below.  The program's `\s` (no `re.ASCII` flag)
also matches further Unicode whitespace, so every theorem quantified over
all texts is stated parametrically in the class instead. -/
def isPySpace (c : Char) : Bool :=
  c == ' ' || c == '\t' || c == '\n' || c == '\r' || c == '\x0b' || c == '\x0c'

/-- ASCII fragment of the Python regex class `\w` (the class `\b` is defined
from): the instantiation used on the concrete ASCII inputs below; theorems
quantified over all texts are parametric in the class. -/
def isWordChar (c : Char) : Bool := c.isAlphanum || c == '_'

/-- The separator class `[-\s]` appearing in `_ISBN_RE`, parametric in the
whitespace class `spc` standing for `\s`. -/
def isSepChar (spc : Char → Bool) (c : Char) : Bool := c == '-' || spc c

/-- The class `[0-9Xx]` that ends the ISBN-10 branch of `_ISBN_RE` (a
literal ASCII class in the pattern, unaffected by Unicode semantics). -/
def isDigitOrX (c : Char) : Bool := c.isDigit || c == 'X' || c == 'x'

/-- Character of `s` at index `i` (arbitrary default past the end). -/
def charAt (s : Chars) (i : Nat) : Char := s.getD i ' '

/-- Python `\b` over the word class `wrd` standing for `\w`: holds at
position `i` iff exactly one side is a word character. -/
def atBoundary (wrd : Char → Bool) (s : Chars) (i : Nat) : Bool :=
  (decide (0 < i) && wrd (charAt s (i - 1)))
    != (decide (i < s.length) && wrd (charAt s i))

/-- A matcher takes the subject and a start position and returns the possible
end positions in backtracking priority order (first = explored first). -/
abbrev M := Chars → Nat → List Nat

/-- Single character from a class. -/
def pCls (p : Char → Bool) : M := fun s i =>
  if i < s.length && p (charAt s i) then [i + 1] else []

/-- Literal character sequence. -/
def pLit : List Char → M
  | [], _, i => [i]
  | c :: cs, s, i =>
      if i < s.length && (charAt s i == c) then pLit cs s (i + 1) else []

/-- Sequencing: priority order is the backtracking order of the pair. -/
def pSeq (a b : M) : M := fun s i => (a s i).flatMap (b s)

/-- Alternation `x|y`: the left branch has priority. -/
def pAlt (a b : M) : M := fun s i => a s i ++ b s i

/-- Greedy option `x?`: matching is tried before skipping. -/
def pOpt (a : M) : M := fun s i => a s i ++ [i]

/-- Length of the run of characters satisfying `p` starting a list. -/
def runLenAux (p : Char → Bool) : Chars → Nat
  | [] => 0
  | c :: cs => if p c then runLenAux p cs + 1 else 0

/-- Length of the run of characters satisfying `p` at position `i` of `s`. -/
def runLen (p : Char → Bool) (s : Chars) (i : Nat) : Nat := runLenAux p (s.drop i)

/-- End positions `[i+r, ..., i+1]`, longest first (greedy order). -/
def descEnds (i r : Nat) : List Nat := (List.range r).map (fun k => i + (r - k))

/-- Greedy `p+` over a one-character class. -/
def pPlus (p : Char → Bool) : M := fun s i => descEnds i (runLen p s i)

/-- Greedy `p{1,5}` over a one-character class. -/
def pRep1to5 (p : Char → Bool) : M := fun s i => descEnds i (min 5 (runLen p s i))

/-- Greedy `p*` over a one-character class. -/
def pStar (p : Char → Bool) : M := fun s i => descEnds i (runLen p s i) ++ [i]

/-- The optional separator `[-\s]?` of `_ISBN_RE`. -/
def pSepOpt (spc : Char → Bool) : M := pOpt (pCls (isSepChar spc))

/-- The `ISBN(?:-1[03])?:?\s*` tag that may precede the captured group. -/
def pIsbnTag (spc : Char → Bool) : M :=
  pSeq (pLit ['I', 'S', 'B', 'N'])
    (pSeq (pOpt (pSeq (pLit ['-', '1']) (pCls (fun c => c == '0' || c == '3'))))
      (pSeq (pOpt (pCls (fun c => c == ':'))) (pStar spc)))

/-- ISBN-13 branch of the captured group, parametric in the digit class
`dig` standing for `\d` and the whitespace class `spc` standing for `\s`:
`97[89][-\s]?\d{1,5}[-\s]?\d+[-\s]?\d+[-\s]?\d`. -/
def pBodyA (dig spc : Char → Bool) : M :=
  pSeq (pLit ['9', '7'])
    (pSeq (pCls (fun c => c == '8' || c == '9'))
      (pSeq (pSepOpt spc)
        (pSeq (pRep1to5 dig)
          (pSeq (pSepOpt spc)
            (pSeq (pPlus dig)
              (pSeq (pSepOpt spc)
                (pSeq (pPlus dig)
                  (pSeq (pSepOpt spc) (pCls dig)))))))))

/-- ISBN-10 branch of the captured group, parametric in the classes:
`\d{1,5}[-\s]?\d+[-\s]?\d+[-\s]?[0-9Xx]`. -/
def pBodyB (dig spc : Char → Bool) : M :=
  pSeq (pRep1to5 dig)
    (pSeq (pSepOpt spc)
      (pSeq (pPlus dig)
        (pSeq (pSepOpt spc)
          (pSeq (pPlus dig)
            (pSeq (pSepOpt spc) (pCls isDigitOrX))))))

/-- The captured group of `_ISBN_RE`: the ISBN-13 branch is tried first. -/
def pBody (dig spc : Char → Bool) : M := pAlt (pBodyA dig spc) (pBodyB dig spc)

/-- All `(group-start, group-end)` pairs of a match of `_ISBN_RE` anchored at
position `i`, in backtracking priority order: a word boundary at `i`, the
optional tag, the captured group, and a trailing word boundary. -/
def groupEnds (dig spc wrd : Char → Bool) (s : Chars) (i : Nat) : List (Nat × Nat) :=
  if atBoundary wrd s i then
    ((pOpt (pIsbnTag spc)) s i).flatMap (fun g1 =>
      (pBody dig spc s g1).filterMap (fun g2 =>
        if atBoundary wrd s g2 then some (g1, g2) else none))
  else []

/-- Scan start positions left to right (Python `re.search`); the first
position with a match wins, and its highest-priority parse is taken. -/
def searchFrom (dig spc wrd : Char → Bool) (s : Chars) (i : Nat) : Nat → Option (Nat × Nat)
  | 0 => none
  | fuel + 1 =>
      match (groupEnds dig spc wrd s i).head? with
      | some r => some r
      | none => searchFrom dig spc wrd s (i + 1) fuel

/-- Model of `_ISBN_RE.search`: the span of capture group 1, if any. -/
def regexSearch (dig spc wrd : Char → Bool) (s : Chars) : Option (Nat × Nat) :=
  searchFrom dig spc wrd s 0 (s.length + 1)

/-- The slice `s[a:b]`. -/
def sliceStr (s : Chars) (a b : Nat) : Chars := (s.drop a).take (b - a)

/-- Characters kept by `_normalize_isbn`: the complement of `[^0-9Xx]` (a
literal ASCII class, unaffected by Unicode semantics). -/
def keepChar (c : Char) : Bool := c.isDigit || c == 'X' || c == 'x'

/-- Model of `_normalize_isbn`: `re.sub(r'[^0-9Xx]', '', raw).upper()`. -/
def normalize_isbn (raw : String) : String :=
  String.mk ((raw.data.filter keepChar).map Char.toUpper)

/-- Model of `Book._find_isbn_in_text` over arbitrary instantiations of the
pattern's `\d`, `\s` and `\w` classes: search then normalize group 1. -/
def findIsbnWith (dig spc wrd : Char → Bool) (text : String) : Option String :=
  (regexSearch dig spc wrd text.data).map (fun r =>
    normalize_isbn (String.mk (sliceStr text.data r.1 r.2)))

/-- The ASCII instantiation of the matcher, used to evaluate the concrete
ASCII inputs below, on which it agrees with the Unicode-aware program. -/
def find_isbn_in_text (text : String) : Option String :=
  findIsbnWith Char.isDigit isPySpace isWordChar text

/-- A parsed PDF document: its info dictionary and the extracted text of each
page, in order (`page.extract_text() or ''` is modelled as the string). -/
structure PdfDoc where
  info : List (String × String)
  pages : List String

/-- A parsed EPUB container: the Dublin-Core `title` and `creator` entries and
the decoded text of each `ITEM_DOCUMENT` item, in order. -/
structure EpubDoc where
  dcTitle : List String
  dcCreator : List String
  items : List String

/-- A file as the `Book` dataclass observes it: the path's suffix together
with the outcome of each container parse (`pypdf.PdfReader` respectively
`epub.read_epub`); a raised exception is an `Except.error`. -/
structure BookFile where
  suffix : String
  pdfRead : Except String PdfDoc
  epubRead : Except String EpubDoc

/-- Model of Python `str.lower()` on the suffix: lower-case each character. -/
def pyLower (s : String) : String := String.mk (s.data.map Char.toLower)

/-- Lookup in the PDF info dictionary (`info.get(k)` / `getattr(info, k, None)`). -/
def infoGet (info : List (String × String)) (k : String) : Option String :=
  (info.find? (fun p => p.1 == k)).map Prod.snd

/-- Python `x or y` on optional strings: `None` and `""` are falsy. -/
def pyOr (a b : Option String) : Option String :=
  match a with
  | some s => if s == "" then b else some s
  | none => b

/-- Python `dict.get(k)` on a `{str: Optional[str]}` mapping modelled as an
association list: an absent key yields `None`. -/
def dictGet (d : List (String × Option String)) (k : String) : Option String :=
  match d.find? (fun p => p.1 == k) with
  | some p => p.2
  | none => none

namespace Book

/-- Model of `Book.format`: dispatch on the lower-cased suffix, with
`'Unknown'` as the dictionary-lookup default. -/
def format (b : BookFile) : String :=
  if pyLower b.suffix == ".pdf" then "PDF"
  else if pyLower b.suffix == ".epub" then "EPUB"
  else "Unknown"

/-- Model of `Book._extract_pdf_metadata`: on any parse exception return `{}`;
otherwise read `/Title` or `title`, `/Author` or `author` (Python `or`). -/
def extract_pdf_metadata (b : BookFile) : List (String × Option String) :=
  match b.pdfRead with
  | Except.error _ => []
  | Except.ok doc =>
      [("title", pyOr (infoGet doc.info "/Title") (infoGet doc.info "title")),
       ("author", pyOr (infoGet doc.info "/Author") (infoGet doc.info "author"))]

/-- Model of `Book._extract_epub_metadata`: on any parse exception return `{}`;
otherwise the first Dublin-Core `title` and `creator` values, if any. -/
def extract_epub_metadata (b : BookFile) : List (String × Option String) :=
  match b.epubRead with
  | Except.error _ => []
  | Except.ok doc => [("title", doc.dcTitle.head?), ("author", doc.dcCreator.head?)]

/-- Model of `Book.metadata`: dispatch on `format`, defaulting to `{}`. -/
def metadata (b : BookFile) : List (String × Option String) :=
  if format b == "PDF" then extract_pdf_metadata b
  else if format b == "EPUB" then extract_epub_metadata b
  else []

/-- Model of `Book.title`: `self.metadata.get('title')`. -/
def title (b : BookFile) : Option String := dictGet (metadata b) "title"

/-- Model of `Book.author`: `self.metadata.get('author')`. -/
def author (b : BookFile) : Option String := dictGet (metadata b) "author"

/-- The scan loop shared by both ISBN extractors: apply the Pattern Matcher
to each text block in order and return the first hit. -/
def find_first_isbn : List String → Option String
  | [] => none
  | blk :: rest =>
      match find_isbn_in_text blk with
      | some s => some s
      | none => find_first_isbn rest

/-- Model of `Book._extract_isbn_from_pdf`: on any parse exception return
`None`; otherwise scan `reader.pages[:max_pages]` for the first ISBN. -/
def extract_isbn_from_pdf (b : BookFile) (max_pages : Nat := 10) : Option String :=
  match b.pdfRead with
  | Except.error _ => none
  | Except.ok doc => find_first_isbn (doc.pages.take max_pages)

/-- Model of `Book._extract_isbn_from_epub`: on any parse exception return
`None`; otherwise scan every document item for the first ISBN. -/
def extract_isbn_from_epub (b : BookFile) : Option String :=
  match b.epubRead with
  | Except.error _ => none
  | Except.ok doc => find_first_isbn doc.items

/-- Model of `Book.isbn`: dispatch on `format`, defaulting to `None`. -/
def isbn (b : BookFile) : Option String :=
  if format b == "PDF" then extract_isbn_from_pdf b
  else if format b == "EPUB" then extract_isbn_from_epub b
  else none

end Book

/-- Model of one access to a `functools.cached_property` attribute: `cache`
is the slot in the instance dictionary (`none` = not yet computed), `compute`
the underlying extraction.  Returns the attribute value, the new slot state,
and how many times the extraction ran during this access. -/
def cachedGet {α : Type} (cache : Option α) (compute : Unit → α) : α × Option α × Nat :=
  match cache with
  | some v => (v, some v, 0)
  | none => (compute (), some (compute ()), 1)

/-- Characters that may occur inside the captured group: literal ASCII
digits (from `97[89]`), the digit class and the separator class, parametric
in the pattern's `\d` and `\s` classes. -/
def isBodyChar (dig spc : Char → Bool) (c : Char) : Bool :=
  c.isDigit || dig c || isSepChar spc c

/-- `spansP p s i j` holds when every character of `s` in `[i, j)` satisfies `p`. -/
def spansP (p : Char → Bool) (s : Chars) (i j : Nat) : Prop :=
  ∀ k, i ≤ k → k < j → p (charAt s k) = true

/-- PDF whose only ISBN-shaped text sits on page 3 of 12. -/
def pdfIsbnOnPage3 : BookFile :=
  { suffix := ".pdf"
    pdfRead := Except.ok
      { info := []
        pages := ["", "", "ISBN-13: 978-1-23456-789-7", "", "", "", "", "", "", "", "", ""] }
    epubRead := Except.error "not an epub" }

/-- PDF whose only ISBN-shaped text sits on page 12 of 12. -/
def pdfIsbnOnPage12 : BookFile :=
  { suffix := ".pdf"
    pdfRead := Except.ok
      { info := []
        pages := ["", "", "", "", "", "", "", "", "", "", "", "ISBN-13: 978-1-23456-789-7"] }
    epubRead := Except.error "not an epub" }

/-- A corrupt file carrying the `.pdf` extension: both container parses fail. -/
def corruptPdf : BookFile :=
  { suffix := ".pdf"
    pdfRead := Except.error "EOF marker not found"
    epubRead := Except.error "bad zip file" }

/-! Basic facts about characters, runs and slices. -/

lemma toUpper_of_isDigit {c : Char} (h : c.isDigit = true) : c.toUpper = c := by
  have h2 : c.toNat ≤ 57 := by
    simp [Char.isDigit, decide_eq_true_eq] at h
    exact h.2
  simp only [Char.toUpper]
  rw [if_neg]
  omega

lemma isDigit_toUpper {c : Char} (h : c.isDigit = true) : c.toUpper.isDigit = true := by
  rw [toUpper_of_isDigit h]; exact h

lemma pySpace_not_keep : ∀ c : Char, isPySpace c = true → keepChar c = false := by
  intro c h
  simp [isPySpace] at h
  have h6 : c = ' ' ∨ c = '\t' ∨ c = '\n' ∨ c = '\x0d' ∨ c = '\x0b' ∨ c = '\x0c' := by
    tauto
  rcases h6 with rfl | rfl | rfl | rfl | rfl | rfl <;> decide

lemma keep_body_digit {dig spc : Char → Bool} {c : Char}
    (H1 : ∀ a : Char, spc a = true → keepChar a = false)
    (H2X : dig 'X' = false) (H2x : dig 'x' = false)
    (hb : isBodyChar dig spc c = true) (hk : keepChar c = true) :
    c.isDigit = true := by
  have hk' : c.isDigit = true ∨ c = 'X' ∨ c = 'x' := by
    simp [keepChar] at hk
    tauto
  rcases hk' with h | rfl | rfl
  · exact h
  · have hd : ('X' : Char).isDigit = false := by decide
    have hm : (('X' : Char) == '-') = false := by decide
    simp [isBodyChar, isSepChar, H2X, hd, hm] at hb
    rw [H1 'X' hb] at hk
    simp at hk
  · have hd : ('x' : Char).isDigit = false := by decide
    have hm : (('x' : Char) == '-') = false := by decide
    simp [isBodyChar, isSepChar, H2x, hd, hm] at hb
    rw [H1 'x' hb] at hk
    simp at hk

lemma getD_drop (l : Chars) (i k : Nat) : (l.drop i).getD k ' ' = l.getD (i + k) ' ' := by
  induction l generalizing i k with
  | nil => simp
  | cons c cs ih =>
      cases i with
      | zero => simp
      | succ n =>
          simp [Nat.succ_add, ih n k]

lemma runLenAux_le (p : Char → Bool) (l : Chars) : runLenAux p l ≤ l.length := by
  induction l with
  | nil => simp [runLenAux]
  | cons c cs ih =>
      by_cases h : p c
      · simp only [runLenAux, h, if_true, List.length_cons]
        omega
      · simp [runLenAux, h]

lemma runLenAux_sound (p : Char → Bool) (l : Chars) (k : Nat) (hk : k < runLenAux p l) :
    p (l.getD k ' ') = true := by
  induction l generalizing k with
  | nil => simp [runLenAux] at hk
  | cons c cs ih =>
      by_cases h : p c
      · cases k with
        | zero => simpa using h
        | succ n =>
            simp only [runLenAux, h, if_true] at hk
            simpa using ih n (by omega)
      · simp [runLenAux, h] at hk

lemma runLen_le {p : Char → Bool} {s : Chars} {i : Nat} (h : 0 < runLen p s i) :
    i + runLen p s i ≤ s.length := by
  have h1 : runLen p s i ≤ (s.drop i).length := runLenAux_le p (s.drop i)
  rw [List.length_drop] at h1
  omega

lemma runLen_char {p : Char → Bool} {s : Chars} {i k : Nat}
    (h1 : i ≤ k) (h2 : k < i + runLen p s i) : p (charAt s k) = true := by
  have h3 : p ((s.drop i).getD (k - i) ' ') = true :=
    runLenAux_sound p (s.drop i) (k - i) (by unfold runLen at h2; omega)
  rw [getD_drop] at h3
  unfold charAt
  have h4 : i + (k - i) = k := by omega
  rwa [h4] at h3

lemma mem_descEnds {i r j : Nat} (h : j ∈ descEnds i r) : i < j ∧ j ≤ i + r := by
  simp only [descEnds, List.mem_map, List.mem_range] at h
  obtain ⟨k, hk, rfl⟩ := h
  omega

lemma mem_pCls {p : Char → Bool} {s : Chars} {i j : Nat} (h : j ∈ pCls p s i) :
    j = i + 1 ∧ i < s.length ∧ p (charAt s i) = true := by
  unfold pCls at h
  split at h
  · next hc =>
      simp only [List.mem_singleton] at h
      simp only [Bool.and_eq_true, decide_eq_true_eq] at hc
      exact ⟨h, hc.1, hc.2⟩
  · simp at h

lemma mem_pSeq {a b : M} {s : Chars} {i j : Nat} :
    j ∈ pSeq a b s i ↔ ∃ m, m ∈ a s i ∧ j ∈ b s m := by
  simp [pSeq]

lemma mem_pAlt {a b : M} {s : Chars} {i j : Nat} (h : j ∈ pAlt a b s i) :
    j ∈ a s i ∨ j ∈ b s i := by
  simpa [pAlt] using h

lemma mem_pOpt {a : M} {s : Chars} {i j : Nat} (h : j ∈ pOpt a s i) :
    j ∈ a s i ∨ j = i := by
  simpa [pOpt] using h

lemma mem_pLit {cs : List Char} {s : Chars} {i j : Nat} (h : j ∈ pLit cs s i) :
    j = i + cs.length ∧
      ∀ k, k < cs.length → i + k < s.length ∧ charAt s (i + k) = cs.getD k ' ' := by
  induction cs generalizing i with
  | nil =>
      simp only [pLit, List.mem_singleton] at h
      exact ⟨by simpa using h, by intro k hk; simp at hk⟩
  | cons c cs' ih =>
      unfold pLit at h
      split at h
      · next hc =>
          simp only [Bool.and_eq_true, decide_eq_true_eq, beq_iff_eq] at hc
          obtain ⟨hj, hch⟩ := ih h
          constructor
          · simp only [List.length_cons]; omega
          · intro k hk
            cases k with
            | zero => simpa using ⟨hc.1, hc.2⟩
            | succ n =>
                have := hch n (by simpa using hk)
                constructor
                · omega
                · have h5 : i + (n + 1) = i + 1 + n := by omega
                  rw [h5, this.2]
                  simp
      · simp at h

lemma pPlus_sound {p : Char → Bool} {s : Chars} {i j : Nat} (h : j ∈ pPlus p s i) :
    i < j ∧ j ≤ s.length ∧ spansP p s i j := by
  have hd := mem_descEnds h
  have hr : 0 < runLen p s i := by omega
  have hl := runLen_le hr
  refine ⟨hd.1, by omega, ?_⟩
  intro k hk1 hk2
  exact runLen_char hk1 (by omega)

lemma pRep1to5_sound {p : Char → Bool} {s : Chars} {i j : Nat} (h : j ∈ pRep1to5 p s i) :
    i < j ∧ j ≤ s.length ∧ spansP p s i j := by
  have hd := mem_descEnds h
  have hmin : min 5 (runLen p s i) ≤ runLen p s i := Nat.min_le_right _ _
  have hr : 0 < runLen p s i := by omega
  have hl := runLen_le hr
  refine ⟨hd.1, by omega, ?_⟩
  intro k hk1 hk2
  exact runLen_char hk1 (by omega)

lemma spansP_empty {p : Char → Bool} {s : Chars} {i j : Nat} (h : j ≤ i) : spansP p s i j := by
  intro k hk1 hk2
  omega

lemma spansP_glue {p : Char → Bool} {s : Chars} {i m j : Nat}
    (h1 : spansP p s i m) (h2 : spansP p s m j) : spansP p s i j := by
  intro k hk1 hk2
  by_cases hm : k < m
  · exact h1 k hk1 hm
  · exact h2 k (by omega) hk2

lemma spansP_mono {p q : Char → Bool} {s : Chars} {i j : Nat}
    (hpq : ∀ c, p c = true → q c = true) (h : spansP p s i j) : spansP q s i j := by
  intro k hk1 hk2
  exact hpq _ (h k hk1 hk2)

lemma spansP_single {p : Char → Bool} {s : Chars} {m : Nat}
    (h : p (charAt s m) = true) : spansP p s m (m + 1) := by
  intro k hk1 hk2
  have : k = m := by omega
  rwa [this]

lemma ascii_digit_body {dig spc : Char → Bool} {c : Char} (h : c.isDigit = true) :
    isBodyChar dig spc c = true := by
  simp [isBodyChar, h]

lemma digit_body {dig spc : Char → Bool} {c : Char} (h : dig c = true) :
    isBodyChar dig spc c = true := by
  simp [isBodyChar, h]

lemma sep_body {dig spc : Char → Bool} {c : Char} (h : isSepChar spc c = true) :
    isBodyChar dig spc c = true := by
  simp [isBodyChar, h]

lemma pSepOpt_sound {dig spc : Char → Bool} {s : Chars} {i j : Nat}
    (hlen : i ≤ s.length) (h : j ∈ pSepOpt spc s i) :
    i ≤ j ∧ j ≤ s.length ∧ spansP (isBodyChar dig spc) s i j := by
  rcases mem_pOpt h with h' | rfl
  · obtain ⟨rfl, hlt, hc⟩ := mem_pCls h'
    exact ⟨by omega, by omega, spansP_single (sep_body hc)⟩
  · exact ⟨le_refl _, hlen, spansP_empty (le_refl _)⟩

lemma slice_append (s : Chars) {a m b : Nat} (h1 : a ≤ m) (h2 : m ≤ b) :
    sliceStr s a b = sliceStr s a m ++ sliceStr s m b := by
  unfold sliceStr
  have hsum : b - a = (m - a) + (b - m) := by omega
  have hd : (s.drop a).drop (m - a) = s.drop m := by
    rw [List.drop_drop]
    congr 1
    omega
  rw [hsum, List.take_add, hd]

lemma mem_slice {s : Chars} {a b : Nat} {c : Char} (h : c ∈ sliceStr s a b) :
    ∃ k, a ≤ k ∧ k < b ∧ k < s.length ∧ charAt s k = c := by
  unfold sliceStr at h
  rw [List.mem_iff_getElem] at h
  obtain ⟨idx, hidx, hc⟩ := h
  have hlt : idx < (s.drop a).length := by
    have h5 : (List.take (b - a) (s.drop a)).length ≤ (s.drop a).length := by
      rw [List.length_take]
      exact Nat.min_le_right _ _
    omega
  rw [List.getElem_take, List.getElem_drop] at hc
  refine ⟨a + idx, by omega, ?_, ?_, ?_⟩
  · have h6 : (List.take (b - a) (s.drop a)).length ≤ b - a := by
      rw [List.length_take]
      exact Nat.min_le_left _ _
    omega
  · rw [List.length_drop] at hlt
    omega
  · unfold charAt
    rw [List.getD_eq_getElem]
    exact hc

lemma drop_cons_charAt {s : Chars} {m : Nat} (h : m < s.length) :
    s.drop m = charAt s m :: s.drop (m + 1) := by
  rw [List.drop_eq_getElem_cons h]
  unfold charAt
  rw [List.getD_eq_getElem]

lemma slice_single {s : Chars} {m : Nat} (h : m < s.length) :
    sliceStr s m (m + 1) = [charAt s m] := by
  unfold sliceStr
  rw [drop_cons_charAt h]
  simp

lemma slice_cons {s : Chars} {k b : Nat} (h2 : k < b) (h3 : k < s.length) :
    sliceStr s k b = charAt s k :: sliceStr s (k + 1) b := by
  unfold sliceStr
  rw [drop_cons_charAt h3]
  have hb : b - k = (b - (k + 1)) + 1 := by omega
  rw [hb]
  rfl

lemma charAt_mem_slice {s : Chars} {a b k : Nat} (h1 : a ≤ k) (h2 : k < b)
    (h3 : k < s.length) : charAt s k ∈ sliceStr s a b := by
  have hkb : k ≤ b := by omega
  rw [slice_append s h1 hkb, slice_cons h2 h3]
  simp

lemma pBodyB_sound {dig spc : Char → Bool} {s : Chars} {i j : Nat}
    (h : j ∈ pBodyB dig spc s i) :
    ∃ m, j = m + 1 ∧ m < s.length ∧ i ≤ m ∧ spansP (isBodyChar dig spc) s i m ∧
      isDigitOrX (charAt s m) = true := by
  rw [pBodyB, mem_pSeq] at h
  obtain ⟨m1, h1, h⟩ := h
  rw [mem_pSeq] at h
  obtain ⟨m2, h2, h⟩ := h
  rw [mem_pSeq] at h
  obtain ⟨m3, h3, h⟩ := h
  rw [mem_pSeq] at h
  obtain ⟨m4, h4, h⟩ := h
  rw [mem_pSeq] at h
  obtain ⟨m5, h5, h⟩ := h
  rw [mem_pSeq] at h
  obtain ⟨m6, h6, h⟩ := h
  obtain ⟨hi1, hm1, hs1⟩ := pRep1to5_sound h1
  obtain ⟨hi2, hm2, hs2⟩ := pSepOpt_sound hm1 h2
  obtain ⟨hi3, hm3, hs3⟩ := pPlus_sound h3
  obtain ⟨hi4, hm4, hs4⟩ := pSepOpt_sound hm3 h4
  obtain ⟨hi5, hm5, hs5⟩ := pPlus_sound h5
  obtain ⟨hi6, hm6, hs6⟩ := pSepOpt_sound hm5 h6
  obtain ⟨rfl, hlt, hcls⟩ := mem_pCls h
  refine ⟨m6, rfl, hlt, by omega, ?_, hcls⟩
  exact spansP_glue (spansP_mono (fun c hc => digit_body hc) hs1)
    (spansP_glue hs2 (spansP_glue (spansP_mono (fun c hc => digit_body hc) hs3)
      (spansP_glue hs4 (spansP_glue (spansP_mono (fun c hc => digit_body hc) hs5) hs6))))

lemma pBodyA_sound {dig spc : Char → Bool} {s : Chars} {i j : Nat}
    (h : j ∈ pBodyA dig spc s i) :
    ∃ m, j = m + 1 ∧ m < s.length ∧ i ≤ m ∧ i < s.length ∧ charAt s i = '9' ∧
      spansP (isBodyChar dig spc) s i (m + 1) := by
  rw [pBodyA, mem_pSeq] at h
  obtain ⟨m1, h1, h⟩ := h
  rw [mem_pSeq] at h
  obtain ⟨m2, h2, h⟩ := h
  rw [mem_pSeq] at h
  obtain ⟨m3, h3, h⟩ := h
  rw [mem_pSeq] at h
  obtain ⟨m4, h4, h⟩ := h
  rw [mem_pSeq] at h
  obtain ⟨m5, h5, h⟩ := h
  rw [mem_pSeq] at h
  obtain ⟨m6, h6, h⟩ := h
  rw [mem_pSeq] at h
  obtain ⟨m7, h7, h⟩ := h
  rw [mem_pSeq] at h
  obtain ⟨m8, h8, h⟩ := h
  rw [mem_pSeq] at h
  obtain ⟨m9, h9, h⟩ := h
  obtain ⟨hm1eq, hlit⟩ := mem_pLit h1
  obtain ⟨hm2eq, hm1lt, hc2⟩ := mem_pCls h2
  have hch0 := hlit 0 (by simp)
  have hch1 := hlit 1 (by simp)
  have hc9 : charAt s i = '9' := by
    have := hch0.2
    simpa using this
  have hd0 : (charAt s i).isDigit = true := by
    rw [hc9]
    decide
  have hd1 : (charAt s (i + 1)).isDigit = true := by
    have := hch1.2
    simp at this
    rw [this]
    decide
  have hd2 : (charAt s m1).isDigit = true := by
    simp only [Bool.or_eq_true, beq_iff_eq] at hc2
    rcases hc2 with hc2 | hc2 <;> rw [hc2] <;> decide
  have hilen : i < s.length := by
    have := hch0.1
    omega
  have hm1i : m1 = i + 2 := by simpa using hm1eq
  have hm2i : m2 = i + 3 := by omega
  have hm2len : m2 ≤ s.length := by omega
  have hs0 : spansP (isBodyChar dig spc) s i m2 := by
    intro k hk1 hk2
    have hk3 : k = i ∨ k = i + 1 ∨ k = m1 := by omega
    rcases hk3 with rfl | rfl | rfl
    · exact ascii_digit_body hd0
    · exact ascii_digit_body hd1
    · exact ascii_digit_body hd2
  obtain ⟨hi3, hm3, hs3⟩ := pSepOpt_sound hm2len h3
  obtain ⟨hi4, hm4, hs4⟩ := pRep1to5_sound h4
  obtain ⟨hi5, hm5, hs5⟩ := pSepOpt_sound hm4 h5
  obtain ⟨hi6, hm6, hs6⟩ := pPlus_sound h6
  obtain ⟨hi7, hm7, hs7⟩ := pSepOpt_sound hm6 h7
  obtain ⟨hi8, hm8, hs8⟩ := pPlus_sound h8
  obtain ⟨hi9, hm9, hs9⟩ := pSepOpt_sound hm8 h9
  obtain ⟨rfl, hlt, hcls⟩ := mem_pCls h
  refine ⟨m9, rfl, hlt, by omega, hilen, hc9, ?_⟩
  exact spansP_glue hs0
    (spansP_glue hs3 (spansP_glue (spansP_mono (fun c hc => digit_body hc) hs4)
      (spansP_glue hs5 (spansP_glue (spansP_mono (fun c hc => digit_body hc) hs6)
        (spansP_glue hs7 (spansP_glue (spansP_mono (fun c hc => digit_body hc) hs8)
          (spansP_glue hs9 (spansP_single (digit_body hcls)))))))))

lemma mem_of_headOpt {α : Type} {l : List α} {a : α} (h : l.head? = some a) : a ∈ l := by
  cases l with
  | nil => simp at h
  | cons x xs =>
      simp only [List.head?_cons, Option.some.injEq] at h
      simp [h]

lemma searchFrom_sound {dig spc wrd : Char → Bool} {s : Chars} {r : Nat × Nat} :
    ∀ fuel i, searchFrom dig spc wrd s i fuel = some r →
      ∃ i0, r ∈ groupEnds dig spc wrd s i0 := by
  intro fuel
  induction fuel with
  | zero =>
      intro i h
      simp [searchFrom] at h
  | succ n ih =>
      intro i h
      unfold searchFrom at h
      cases hh : (groupEnds dig spc wrd s i).head? with
      | some r0 =>
          rw [hh] at h
          simp only [Option.some.injEq] at h
          subst h
          exact ⟨i, mem_of_headOpt hh⟩
      | none =>
          rw [hh] at h
          exact ih (i + 1) h

lemma mem_groupEnds_body {dig spc wrd : Char → Bool} {s : Chars} {i : Nat}
    {r : Nat × Nat} (h : r ∈ groupEnds dig spc wrd s i) :
    r.2 ∈ pBody dig spc s r.1 := by
  unfold groupEnds at h
  split at h
  · rw [List.mem_flatMap] at h
    obtain ⟨g1, hg1, h⟩ := h
    rw [List.mem_filterMap] at h
    obtain ⟨g2, hg2, heq⟩ := h
    split at heq
    · have hr : (g1, g2) = r := by injection heq
      subst hr
      exact hg2
    · cases heq
  · simp at h

lemma regexSearch_sound {dig spc wrd : Char → Bool} {s : Chars} {g1 g2 : Nat}
    (h : regexSearch dig spc wrd s = some (g1, g2)) : g2 ∈ pBody dig spc s g1 := by
  obtain ⟨i0, hmem⟩ := searchFrom_sound (s.length + 1) 0 h
  exact mem_groupEnds_body hmem

/-- Shape of every candidate the Pattern Matcher can return, for every
instantiation of the pattern's `\d`, `\s`, `\w` classes that satisfies two
facts true of their Unicode-aware Python semantics: whitespace never lies
in `[0-9Xx]`, and `X`/`x` are not decimal digits.  The candidate is a
nonempty list of ASCII digits with one final check character (digit or
uppercase `X`). -/
lemma find_isbn_shape {dig spc wrd : Char → Bool} {text out : String}
    (H1 : ∀ a : Char, spc a = true → keepChar a = false)
    (H2X : dig 'X' = false) (H2x : dig 'x' = false)
    (h : findIsbnWith dig spc wrd text = some out) :
    ∃ A c, out.data = A ++ [c] ∧ (∀ a ∈ A, a.isDigit = true) ∧
      (c.isDigit = true ∨ c = 'X') := by
  unfold findIsbnWith at h
  rw [Option.map_eq_some'] at h
  obtain ⟨r, hr, hout⟩ := h
  obtain ⟨g1, g2⟩ := r
  have hb := regexSearch_sound hr
  rcases mem_pAlt hb with hbr | hbr
  · obtain ⟨m, rfl, hmlen, him, hilen, hc9, hspan⟩ := pBodyA_sound hbr
    have hdata : out.data =
        ((sliceStr text.data g1 (m + 1)).filter keepChar).map Char.toUpper := by
      rw [← hout]
      rfl
    have hall : ∀ a ∈ out.data, a.isDigit = true := by
      intro a ha
      rw [hdata, List.mem_map] at ha
      obtain ⟨x, hx, rfl⟩ := ha
      rw [List.mem_filter] at hx
      obtain ⟨hxs, hxk⟩ := hx
      obtain ⟨k, hk1, hk2, hk3, rfl⟩ := mem_slice hxs
      exact isDigit_toUpper (keep_body_digit H1 H2X H2x (hspan k hk1 hk2) hxk)
    have h9 : ('9' : Char) ∈ out.data := by
      rw [hdata, List.mem_map]
      refine ⟨'9', ?_, by decide⟩
      rw [List.mem_filter]
      refine ⟨?_, by decide⟩
      rw [← hc9]
      exact charAt_mem_slice (le_refl g1) (by omega) hilen
    have hne : out.data ≠ [] := by
      intro h0
      rw [h0] at h9
      simp at h9
    refine ⟨out.data.dropLast, out.data.getLast hne,
      (List.dropLast_append_getLast hne).symm, ?_, ?_⟩
    · intro a ha
      refine hall a ?_
      have hsub := List.dropLast_subset out.data
      exact hsub ha
    · exact Or.inl (hall _ (List.getLast_mem hne))
  · obtain ⟨m, rfl, hmlen, him, hspan, hdx⟩ := pBodyB_sound hbr
    have hsl : sliceStr text.data g1 (m + 1) =
        sliceStr text.data g1 m ++ [charAt text.data m] := by
      rw [slice_append text.data him (by omega), slice_single hmlen]
    have hA : out.data =
        (List.filter keepChar (sliceStr text.data g1 m)).map Char.toUpper ++
          [(charAt text.data m).toUpper] := by
      rw [← hout]
      show ((sliceStr text.data g1 (m + 1)).filter keepChar).map Char.toUpper = _
      rw [hsl, List.filter_append, List.map_append]
      have hk : keepChar (charAt text.data m) = true := hdx
      simp [hk]
    refine ⟨_, _, hA, ?_, ?_⟩
    · intro a ha
      rw [List.mem_map] at ha
      obtain ⟨x, hx, rfl⟩ := ha
      rw [List.mem_filter] at hx
      obtain ⟨hxs, hxk⟩ := hx
      obtain ⟨k, hk1, hk2, hk3, rfl⟩ := mem_slice hxs
      exact isDigit_toUpper (keep_body_digit H1 H2X H2x (hspan k hk1 hk2) hxk)
    · have hdx' : (charAt text.data m).isDigit = true ∨
          charAt text.data m = 'X' ∨ charAt text.data m = 'x' := by
        have := hdx
        simp [isDigitOrX] at this
        tauto
      rcases hdx' with hd | hd | hd
      · exact Or.inl (isDigit_toUpper hd)
      · rw [hd]; right; decide
      · rw [hd]; right; decide

/-! Claim theorems. -/

/-- Claim C1, counterexample: on the input `1-2-3-4` the Pattern Matcher
returns the candidate `1234`, which has neither 13 nor 10 characters, so the
claimed exact two-shape dichotomy fails. -/
theorem C1_counterexample :
    find_isbn_in_text "1-2-3-4" = some "1234" ∧
      ("1234" : String).length ≠ 13 ∧ ("1234" : String).length ≠ 10 := by
  refine ⟨by decide, by decide, by decide⟩

/-- Claim C1, amended: for every instantiation of the pattern's
Unicode-aware classes `\d`, `\s`, `\w` that satisfies the two facts true of
Python's classes — whitespace never lies in `[0-9Xx]`, and `X`/`x` are not
decimal digits — every non-no-match result of the Pattern Matcher is, after
normalization, a nonempty string in which every character but the last is a
digit and the last is a digit or `X`.  The separator-tolerant branches
enforce neither exactly 13 nor exactly 10 characters, and with non-ASCII
decimal digits in the input the candidate can be as short as one
character. -/
theorem C1_candidate_shape : ∀ (dig spc wrd : Char → Bool) (text out : String),
    (∀ a : Char, spc a = true → keepChar a = false) →
    dig 'X' = false → dig 'x' = false →
    findIsbnWith dig spc wrd text = some out →
    1 ≤ out.length ∧ (∀ a ∈ out.data.dropLast, a.isDigit = true) ∧
      (∀ c, out.data.getLast? = some c → c.isDigit = true ∨ c = 'X') := by
  intro dig spc wrd text out H1 H2X H2x h
  obtain ⟨A, c, hAc, hdig, hc⟩ := find_isbn_shape H1 H2X H2x h
  refine ⟨?_, ?_, ?_⟩
  · show 1 ≤ out.data.length
    rw [hAc, List.length_append, List.length_singleton]
    omega
  · intro a ha
    rw [hAc, List.dropLast_concat] at ha
    exact hdig a ha
  · intro c' hc'
    rw [hAc, List.getLast?_concat] at hc'
    have : c = c' := by injection hc'
    rw [← this]
    exact hc

/-- Claim C1, witness: the shape theorem instantiated at the ASCII classes
and applied to the concrete input `1-2-3-4`. -/
theorem C1_witness : 1 ≤ ("1234" : String).length :=
  (C1_candidate_shape Char.isDigit isPySpace isWordChar "1-2-3-4" "1234"
    pySpace_not_keep (by decide) (by decide) (by decide)).1

/-- Claim C2: whenever both container parses fail (corrupt or unparseable
file), every public operation of the Book Descriptor still returns a plain
value — empty metadata, absent title/author/isbn — and `format` is one of
the three enumerated strings; no error value escapes. -/
theorem C2_no_failure_escapes : ∀ (b : BookFile) (ep ee : String),
    b.pdfRead = Except.error ep → b.epubRead = Except.error ee →
    Book.metadata b = [] ∧ Book.title b = none ∧ Book.author b = none ∧
      Book.isbn b = none ∧
      (Book.format b = "PDF" ∨ Book.format b = "EPUB" ∨ Book.format b = "Unknown") := by
  intro b ep ee hp he
  have hm : Book.metadata b = [] := by
    unfold Book.metadata
    split_ifs with h1 h2
    · unfold Book.extract_pdf_metadata
      rw [hp]
    · unfold Book.extract_epub_metadata
      rw [he]
    · rfl
  have hi : Book.isbn b = none := by
    unfold Book.isbn
    split_ifs with h1 h2
    · unfold Book.extract_isbn_from_pdf
      rw [hp]
    · unfold Book.extract_isbn_from_epub
      rw [he]
    · rfl
  refine ⟨hm, ?_, ?_, hi, ?_⟩
  · unfold Book.title
    rw [hm]
    rfl
  · unfold Book.author
    rw [hm]
    rfl
  · unfold Book.format
    split_ifs <;> simp

/-- Claim C2, witness: the degradation theorem applied to a concrete corrupt
`.pdf` file. -/
theorem C2_witness :
    Book.metadata corruptPdf = [] ∧ Book.title corruptPdf = none ∧
      Book.author corruptPdf = none ∧ Book.isbn corruptPdf = none := by
  have h := C2_no_failure_escapes corruptPdf "EOF marker not found" "bad zip file" rfl rfl
  exact ⟨h.1, h.2.1, h.2.2.1, h.2.2.2.1⟩

/-- Claim C3, counterexample: a text containing `9780134685991` (or its
hyphenated form) on which the Pattern Matcher does not return
`9780134685991`, because an earlier ISBN-shaped substring wins under
leftmost matching. -/
theorem C3_counterexample :
    ("1-2-3-4 9780134685991" = "1-2-3-4 " ++ "9780134685991" ++ "") ∧
      find_isbn_in_text "1-2-3-4 9780134685991" = some "1234" ∧
      ("1-2-3-4 978-0-13-468599-1" = "1-2-3-4 " ++ "978-0-13-468599-1" ++ "") ∧
      find_isbn_in_text "1-2-3-4 978-0-13-468599-1" = some "1234" ∧
      some "1234" ≠ some "9780134685991" := by
  refine ⟨by decide, by decide, by decide, by decide, by decide⟩

/-- Claim C3, amended: on the input texts `978-0-13-468599-1` and
`9780134685991` themselves (rather than on every text containing them), the
Pattern Matcher returns the normalized string `9780134685991`. -/
theorem C3_exact_texts :
    find_isbn_in_text "978-0-13-468599-1" = some "9780134685991" ∧
      find_isbn_in_text "9780134685991" = some "9780134685991" := by
  refine ⟨by decide, by decide⟩

/-- Claim C4, counterexample: a text containing `ISBN: 0-13-468599-1` on
which the Pattern Matcher does not return `0134685991`, because an earlier
ISBN-shaped substring wins under leftmost matching. -/
theorem C4_counterexample :
    ("1-2-3-4 ISBN: 0-13-468599-1" = "1-2-3-4 " ++ "ISBN: 0-13-468599-1" ++ "") ∧
      find_isbn_in_text "1-2-3-4 ISBN: 0-13-468599-1" = some "1234" ∧
      some "1234" ≠ some "0134685991" := by
  refine ⟨by decide, by decide, by decide⟩

/-- Claim C4, amended: on the input text `ISBN: 0-13-468599-1` itself the
Pattern Matcher returns `0134685991` — prefix and separators stripped — and
a trailing check letter is preserved and uppercased (`X` and `x` both give
`013468599X`). -/
theorem C4_exact_texts :
    find_isbn_in_text "ISBN: 0-13-468599-1" = some "0134685991" ∧
      find_isbn_in_text "ISBN: 0-13-468599-X" = some "013468599X" ∧
      find_isbn_in_text "ISBN: 0-13-468599-x" = some "013468599X" := by
  refine ⟨by decide, by decide, by decide⟩

/-- Claim C5: the PDF ISBN scan examines at most the first 10 pages — pages
beyond the tenth never change the result — and on the concrete 12-page
documents, an ISBN on page 3 is found while the same ISBN on page 12 is
not. -/
theorem C5_page_cap :
    (∀ (su : String) (inf : List (String × String)) (ps extra : List String)
        (er : Except String EpubDoc), ps.length = 10 →
        Book.extract_isbn_from_pdf ⟨su, Except.ok ⟨inf, ps ++ extra⟩, er⟩ =
          Book.extract_isbn_from_pdf ⟨su, Except.ok ⟨inf, ps⟩, er⟩) ∧
      Book.isbn pdfIsbnOnPage3 = some "9781234567897" ∧
      Book.isbn pdfIsbnOnPage12 = none := by
  refine ⟨?_, by decide, by decide⟩
  intro su inf ps extra er hlen
  show Book.find_first_isbn (List.take 10 (ps ++ extra)) =
    Book.find_first_isbn (List.take 10 ps)
  rw [← hlen, List.take_left, List.take_length]

/-- Claim C5, witness: the cap theorem applied to a concrete 10-page prefix
and an 11th page holding an ISBN. -/
theorem C5_witness :
    Book.extract_isbn_from_pdf
        ⟨".pdf",
         Except.ok ⟨[], ["", "", "", "", "", "", "", "", "", ""] ++
           ["ISBN-13: 978-1-23456-789-7"]⟩,
         Except.error "e"⟩ =
      Book.extract_isbn_from_pdf
        ⟨".pdf", Except.ok ⟨[], ["", "", "", "", "", "", "", "", "", ""]⟩,
         Except.error "e"⟩ :=
  C5_page_cap.1 ".pdf" [] ["", "", "", "", "", "", "", "", "", ""]
    ["ISBN-13: 978-1-23456-789-7"] (Except.error "e") (by decide)

/-- Claim C6: format dispatch is by lower-cased extension — `.pdf` maps to
PDF, `.epub` to EPUB, anything else to Unknown — and an Unknown-format
descriptor has empty metadata and absent title/author/isbn for every
possible adapter outcome, so neither adapter's result is ever consulted. -/
theorem C6_format_dispatch :
    (∀ b : BookFile, pyLower b.suffix = ".pdf" → Book.format b = "PDF") ∧
      (∀ b : BookFile, pyLower b.suffix = ".epub" → Book.format b = "EPUB") ∧
      (∀ b : BookFile, pyLower b.suffix ≠ ".pdf" → pyLower b.suffix ≠ ".epub" →
        Book.format b = "Unknown" ∧ Book.metadata b = [] ∧ Book.title b = none ∧
          Book.author b = none ∧ Book.isbn b = none) := by
  refine ⟨?_, ?_, ?_⟩
  · intro b h
    have hb : (pyLower b.suffix == ".pdf") = true := by simpa using h
    simp [Book.format, hb]
  · intro b h
    have hb1 : (pyLower b.suffix == ".pdf") = false := by simp [h]
    have hb2 : (pyLower b.suffix == ".epub") = true := by simp [h]
    simp [Book.format, hb1, hb2]
  · intro b h1 h2
    have hb1 : (pyLower b.suffix == ".pdf") = false := by simpa using h1
    have hb2 : (pyLower b.suffix == ".epub") = false := by simpa using h2
    have hf : Book.format b = "Unknown" := by simp [Book.format, hb1, hb2]
    have hm : Book.metadata b = [] := by simp [Book.metadata, hf]
    refine ⟨hf, hm, ?_, ?_, ?_⟩
    · unfold Book.title
      rw [hm]
      rfl
    · unfold Book.author
      rw [hm]
      rfl
    · simp [Book.isbn, hf]

/-- Claim C6, witness: the dispatch theorem applied to a concrete `.txt`
file with arbitrary failing adapters. -/
theorem C6_witness :
    Book.format ⟨".txt", Except.error "a", Except.error "b"⟩ = "Unknown" ∧
      Book.metadata ⟨".txt", Except.error "a", Except.error "b"⟩ = [] ∧
      Book.title ⟨".txt", Except.error "a", Except.error "b"⟩ = none ∧
      Book.author ⟨".txt", Except.error "a", Except.error "b"⟩ = none ∧
      Book.isbn ⟨".txt", Except.error "a", Except.error "b"⟩ = none :=
  C6_format_dispatch.2.2 ⟨".txt", Except.error "a", Except.error "b"⟩
    (by decide) (by decide)

/-- Claim C7: normalization keeps exactly the characters that are digits or
`X`/`x`, uppercasing the result, so every character of a normalized
candidate is a digit or the uppercase letter `X`, with no separators. -/
theorem C7_normalize_strips_uppercases : ∀ raw : String,
    (normalize_isbn raw).data = (raw.data.filter keepChar).map Char.toUpper ∧
      ∀ c ∈ (normalize_isbn raw).data, c.isDigit = true ∨ c = 'X' := by
  intro raw
  refine ⟨rfl, ?_⟩
  intro c hc0
  have hc : c ∈ (raw.data.filter keepChar).map Char.toUpper := hc0
  rw [List.mem_map] at hc
  obtain ⟨x, hx, rfl⟩ := hc
  rw [List.mem_filter] at hx
  have hk : x.isDigit = true ∨ x = 'X' ∨ x = 'x' := by
    have := hx.2
    simp [keepChar] at this
    tauto
  rcases hk with hk | hk | hk
  · exact Or.inl (isDigit_toUpper hk)
  · rw [hk]; right; decide
  · rw [hk]; right; decide

/-- Claim C7, witness: the normalization theorem applied to the concrete raw
group `978-0-13x`, whose trailing `x` is kept and uppercased. -/
theorem C7_witness : ('X'.isDigit = true ∨ 'X' = 'X') :=
  (C7_normalize_strips_uppercases "978-0-13x").2 'X' (by decide)

/-- Claim C8: a `cached_property` slot computes its value at most once — a
second access returns the same value, leaves the slot unchanged and runs the
underlying extraction zero further times, so two successive reads trigger at
most one computation in total. -/
theorem C8_cached_once : ∀ (α : Type) (compute : Unit → α) (slot : Option α),
    (cachedGet (cachedGet slot compute).2.1 compute).1 = (cachedGet slot compute).1 ∧
      (cachedGet (cachedGet slot compute).2.1 compute).2.1 = (cachedGet slot compute).2.1 ∧
      (cachedGet (cachedGet slot compute).2.1 compute).2.2 = 0 ∧
      (cachedGet slot compute).2.2 + (cachedGet (cachedGet slot compute).2.1 compute).2.2 ≤ 1 := by
  intro α compute slot
  cases slot <;> simp [cachedGet]

/-- Claim C8, witness: the caching theorem applied to a concrete metadata
extraction on the corrupt `.pdf` file, starting from an empty slot. -/
theorem C8_witness :
    (cachedGet (cachedGet none (fun _ => Book.metadata corruptPdf)).2.1
        (fun _ => Book.metadata corruptPdf)).1 =
      (cachedGet none (fun _ => Book.metadata corruptPdf)).1 :=
  (C8_cached_once (List (String × Option String))
    (fun _ => Book.metadata corruptPdf) none).1

/-- Claim C9: the ISBN scan visits text blocks in order and returns the
normalized candidate of the first block that matches, ignoring all later
blocks; if no block matches, the result is absent. -/
theorem C9_first_block_wins :
    (∀ blocks : List String,
      (∀ blk ∈ blocks, find_isbn_in_text blk = none) →
        Book.find_first_isbn blocks = none) ∧
      (∀ (pre post : List String) (blk v : String),
        (∀ x ∈ pre, find_isbn_in_text x = none) → find_isbn_in_text blk = some v →
          Book.find_first_isbn (pre ++ blk :: post) = some v) := by
  constructor
  · intro blocks hall
    induction blocks with
    | nil => rfl
    | cons b rest ih =>
        unfold Book.find_first_isbn
        rw [hall b (by simp)]
        exact ih (fun x hx => hall x (by simp [hx]))
  · intro pre post blk v hpre hblk
    induction pre with
    | nil =>
        simp only [List.nil_append]
        unfold Book.find_first_isbn
        rw [hblk]
    | cons p rest ih =>
        simp only [List.cons_append]
        unfold Book.find_first_isbn
        rw [hpre p (by simp)]
        exact ih (fun x hx => hpre x (by simp [hx]))

/-- Claim C9, witness: the first matching block wins even when a later block
also holds an ISBN. -/
theorem C9_witness :
    Book.find_first_isbn
        (["no isbn here"] ++ "9780134685991" :: ["978-0-13-468599-1"]) =
      some "9780134685991" :=
  C9_first_block_wins.2 ["no isbn here"] ["978-0-13-468599-1"]
    "9780134685991" "9780134685991" (by decide) (by decide)

/-- Claim C10: for every instantiation of the pattern's Unicode-aware
classes `\d`, `\s`, `\w` that satisfies the two facts true of Python's
classes — whitespace never lies in `[0-9Xx]`, and `X`/`x` are not decimal
digits — in every candidate the Pattern Matcher returns, the letter `X`
occurs at most once, and never in a non-final position: the 13-digit branch
contributes no `X` at all, and the 10-character branch admits `X`/`x` only
through its final `[0-9Xx]` class. -/
theorem C10_x_at_most_once_final : ∀ (dig spc wrd : Char → Bool) (text out : String),
    (∀ a : Char, spc a = true → keepChar a = false) →
    dig 'X' = false → dig 'x' = false →
    findIsbnWith dig spc wrd text = some out →
    (∀ a ∈ out.data.dropLast, a ≠ 'X') ∧ out.data.count 'X' ≤ 1 := by
  intro dig spc wrd text out H1 H2X H2x h
  obtain ⟨A, c, hAc, hdig, hc⟩ := find_isbn_shape H1 H2X H2x h
  constructor
  · intro a ha hax
    rw [hAc, List.dropLast_concat] at ha
    have := hdig a ha
    rw [hax] at this
    exact absurd this (by decide)
  · rw [hAc, List.count_append]
    have hA0 : A.count 'X' = 0 := by
      rw [List.count_eq_zero]
      intro hmem
      exact absurd (hdig 'X' hmem) (by decide)
    have h1 : ([c].count 'X') ≤ 1 := by
      have := List.count_le_length 'X' [c]
      simpa using this
    omega

/-- Claim C10, witness: the theorem instantiated at the ASCII classes and
applied to the concrete input `ISBN: 0-13-468599-X`. -/
theorem C10_witness : ("013468599X" : String).data.count 'X' ≤ 1 :=
  (C10_x_at_most_once_final Char.isDigit isPySpace isWordChar
    "ISBN: 0-13-468599-X" "013468599X" pySpace_not_keep (by decide) (by decide)
    (by decide)).2

end BookClassificator
